import Mathlib

/-!
# Transactional resource-pool allocator: verification of the specification

A shallow embedding of the resource-pool allocator of this repository
(`db::resource_pool` and the owner bridge around it), together with the
typed-UUID wrappers of the `carbide_uuid` crate, and proofs of the spec's
claims about them.

The allocator implementation itself is not part of the published sources
(only its test suite, `crates/api/src/tests/resource_pool.rs`, is), so the
operational definitions below are modelled from the specification
(§3 data model, §4.4 population engine, §4.5 allocator, §4.6 stats & listing,
§4.7 owner bridge), with the test suite's asserted values pinning every
boundary the spec leaves open.

Values are stored by the implementation as canonical strings compared with a
type-aware comparator: `Integer` and `Ipv4` pools compare by natural numeric
order.  The embedding represents each such value by its numeric denotation
(a `Nat`); `encodeValue` recovers the canonical string where a claim speaks
about it.  Concurrency is modelled by serializing committed transactions:
every allocation of the parallel test commits its own transaction, so a
committed history is a sequence of `allocate` steps (`allocSeq`).
-/

namespace Carbide

/-- Modelled from the spec: value types of a pool (§3, `ValueType`). -/
inductive ValueType where
  | integer
  | ipv4
  | str
  deriving DecidableEq, Repr

/-- Modelled from the spec: owner kinds (§3, `OwnerType`). -/
inductive OwnerType where
  | machine
  | vpc
  | instanceOwner
  | networkSegment
  deriving DecidableEq, Repr

/-- Modelled from the spec: an allocation record embedded in a pool value
(§3, `Allocation`); the timestamp plays no role in any claim. -/
structure Allocation where
  ownerType : OwnerType
  ownerId : String
  deriving DecidableEq, Repr

/-- Modelled from the spec: one row of `resource_pool_value` (§3, `PoolValue`):
a value (numeric denotation of the canonical string), its auto-assignable
flag, and its current allocation, if any. -/
structure PoolValue where
  value : Nat
  autoAssignable : Bool
  alloc : Option Allocation
  deriving DecidableEq, Repr

/-- Modelled from the spec: the rows of one pool, unique by value (§3). -/
structure PoolState where
  values : List PoolValue
  deriving DecidableEq, Repr

/-- The empty pool (no rows yet; a pool is created on first grow). -/
def PoolState.empty : PoolState := ⟨[]⟩

/-- Modelled from the spec: the derived per-pool counters
(`ResourcePoolStats`, §3), in the field order of the test suite's `St`. -/
structure ResourcePoolStats where
  used : Nat
  free : Nat
  auto_assign_free : Nat
  auto_assign_used : Nat
  non_auto_assign_free : Nat
  non_auto_assign_used : Nat
  deriving DecidableEq, Repr

/-- Modelled from the spec: errors surfaced by the allocator (§7). -/
inductive ResourcePoolError where
  | Empty
  | NotFound
  | Conflict
  | NotAllocated
  | PoolUnknown
  | TypeMismatch
  | InvalidValue
  deriving DecidableEq, Repr

/-- A row is currently allocated. -/
def PoolValue.isUsed (pv : PoolValue) : Bool := pv.alloc.isSome

/-- A row is free and eligible for the auto path. -/
def PoolValue.isFreeAuto (pv : PoolValue) : Bool :=
  pv.autoAssignable && pv.alloc.isNone

/-- Modelled from the spec: `stats(pool)` — a single aggregate query over the
pool's rows (§4.5), counting used/free split by the auto flag. -/
def stats (s : PoolState) : ResourcePoolStats where
  used := (s.values.filter (fun pv => pv.alloc.isSome)).length
  free := (s.values.filter (fun pv => pv.alloc.isNone)).length
  auto_assign_free := (s.values.filter (fun pv => pv.autoAssignable && pv.alloc.isNone)).length
  auto_assign_used := (s.values.filter (fun pv => pv.autoAssignable && pv.alloc.isSome)).length
  non_auto_assign_free := (s.values.filter (fun pv => !pv.autoAssignable && pv.alloc.isNone)).length
  non_auto_assign_used := (s.values.filter (fun pv => !pv.autoAssignable && pv.alloc.isSome)).length

/-- Modelled from the spec: insert one seed value (§4.4): a duplicate against
an already-stored value is silently ignored and the existing row, flag
included, is preserved unchanged. -/
def populateOne (s : PoolState) (v : Nat) (auto : Bool) : PoolState :=
  if s.values.any (fun pv => pv.value == v) then s
  else ⟨s.values ++ [⟨v, auto, none⟩]⟩

/-- Modelled from the spec: `populate(pool, values, auto_assignable)` (§4.4),
inserting each seed value in order, idempotently. -/
def populate (s : PoolState) (vs : List Nat) (auto : Bool) : PoolState :=
  vs.foldl (fun s v => populateOne s v auto) s

/-- The values of the free, auto-assignable rows of the pool. -/
def freeAutoValues (s : PoolState) : List Nat :=
  (s.values.filter PoolValue.isFreeAuto).map PoolValue.value

/-- Modelled from the spec: the auto path's candidate selection (§4.5):
order the free auto-assignable rows by value ascending under the type's
natural order and take the first. -/
def minFreeAuto (s : PoolState) : Option Nat :=
  (freeAutoValues s).min?

/-- Mark the row holding value `v` as allocated to `a`. -/
def setAllocated (s : PoolState) (v : Nat) (a : Allocation) : PoolState :=
  ⟨s.values.map (fun pv => if pv.value == v then { pv with alloc := some a } else pv)⟩

/-- Clear the allocation of the row holding value `v`. -/
def clearAllocated (s : PoolState) (v : Nat) : PoolState :=
  ⟨s.values.map (fun pv => if pv.value == v then { pv with alloc := none } else pv)⟩

/-- Modelled from the spec: `allocate(pool, owner_type, owner_id, requested)`
(§4.5).  Auto path: take the lowest free auto-assignable value, else `Empty`.
Manual path: the requested row must exist (`NotFound`) and be free
(`Conflict`); its auto flag is irrelevant.  Returns the allocated value and
the updated pool. -/
def allocate (s : PoolState) (ot : OwnerType) (oid : String) (requested : Option Nat) :
    Except ResourcePoolError (Nat × PoolState) :=
  match requested with
  | none =>
    match minFreeAuto s with
    | none => .error .Empty
    | some v => .ok (v, setAllocated s v ⟨ot, oid⟩)
  | some v =>
    match s.values.find? (fun pv => pv.value == v) with
    | none => .error .NotFound
    | some pv =>
      if pv.alloc.isSome then .error .Conflict
      else .ok (v, setAllocated s v ⟨ot, oid⟩)

/-- Modelled from the spec: `release(pool, value)` (§4.5): delete the
allocation on the row; `NotFound` when the value is not in the pool,
`NotAllocated` when it is currently free. -/
def release (s : PoolState) (v : Nat) : Except ResourcePoolError PoolState :=
  match s.values.find? (fun pv => pv.value == v) with
  | none => .error .NotFound
  | some pv =>
    if pv.alloc.isSome then .ok (clearAllocated s v)
    else .error .NotAllocated

/-- Well-formedness: no `(pool, value)` pair appears twice (§3 invariant 1,
backed by the store's unique constraint). -/
def WF (s : PoolState) : Prop := (s.values.map PoolValue.value).Nodup

/-- Value `v` is present and free in `s`. -/
def isFreeVal (s : PoolState) (v : Nat) : Prop :=
  ∃ pv ∈ s.values, pv.value = v ∧ pv.alloc = none

/-- Value `v` is present and allocated in `s`. -/
def isUsedVal (s : PoolState) (v : Nat) : Prop :=
  ∃ pv ∈ s.values, pv.value = v ∧ pv.alloc.isSome

/-- The number of free auto-assignable rows. -/
def freeAutoCount (s : PoolState) : Nat :=
  (s.values.filter PoolValue.isFreeAuto).length

theorem WF_empty : WF PoolState.empty := by simp [WF, PoolState.empty]

/-- Inserting a fresh value appends one free row. -/
theorem populateOne_fresh {s : PoolState} {v : Nat} {a : Bool}
    (h : v ∉ s.values.map PoolValue.value) :
    populateOne s v a = ⟨s.values ++ [⟨v, a, none⟩]⟩ := by
  unfold populateOne
  rw [if_neg]
  simp only [List.any_eq_true, beq_iff_eq, not_exists]
  intro pv
  simp only [not_and]
  intro hpv hv
  exact h (hv ▸ List.mem_map_of_mem PoolValue.value hpv)

/-- Populating a list of fresh, pairwise-distinct values appends the
corresponding free rows in order. -/
theorem populate_fresh {vs : List Nat} {s : PoolState} {a : Bool}
    (hfresh : ∀ v ∈ vs, v ∉ s.values.map PoolValue.value) (hnd : vs.Nodup) :
    populate s vs a = ⟨s.values ++ vs.map (fun v => ⟨v, a, none⟩)⟩ := by
  induction vs generalizing s with
  | nil => simp [populate]
  | cons v rest ih =>
    have hstep : populateOne s v a = ⟨s.values ++ [⟨v, a, none⟩]⟩ :=
      populateOne_fresh (hfresh v (by simp))
    have hfresh' : ∀ w ∈ rest, w ∉ (⟨s.values ++ [⟨v, a, none⟩]⟩ : PoolState).values.map
        PoolValue.value := by
      intro w hw
      simp only [List.map_append, List.map_cons, List.map_nil, List.mem_append,
        List.mem_singleton]
      rintro (hmem | hEq)
      · exact hfresh w (List.mem_cons_of_mem _ hw) hmem
      · exact (List.nodup_cons.mp hnd).1 (hEq ▸ hw)
    have : populate s (v :: rest) a = populate ⟨s.values ++ [⟨v, a, none⟩]⟩ rest a := by
      simp [populate, hstep]
    rw [this, ih hfresh' (List.nodup_cons.mp hnd).2]
    simp

/-- `setAllocated` does not change the stored values, only allocations. -/
theorem valuesMap_setAllocated (s : PoolState) (v : Nat) (a : Allocation) :
    (setAllocated s v a).values.map PoolValue.value = s.values.map PoolValue.value := by
  simp only [setAllocated, List.map_map]
  apply List.map_congr_left
  intro pv _
  by_cases h : pv.value = v <;> simp [h]

theorem WF_setAllocated {s : PoolState} (hs : WF s) (v : Nat) (a : Allocation) :
    WF (setAllocated s v a) := by
  unfold WF
  rw [valuesMap_setAllocated]
  exact hs

/-- Rows of a well-formed pool are determined by their value. -/
theorem WF.value_inj {s : PoolState} (hs : WF s) {pv₁ pv₂ : PoolValue}
    (h₁ : pv₁ ∈ s.values) (h₂ : pv₂ ∈ s.values) (hv : pv₁.value = pv₂.value) :
    pv₁ = pv₂ := by
  have hnd : s.values.Nodup := List.Nodup.of_map _ hs
  exact (List.nodup_map_iff_inj_on hnd).mp hs pv₁ h₁ pv₂ h₂ hv

/-- In a well-formed pool no value is both free and allocated. -/
theorem not_free_and_used {s : PoolState} (hs : WF s) {v : Nat}
    (hf : isFreeVal s v) (hu : isUsedVal s v) : False := by
  obtain ⟨pv₁, h₁, hv₁, ha₁⟩ := hf
  obtain ⟨pv₂, h₂, hv₂, ha₂⟩ := hu
  have heq : pv₁ = pv₂ := hs.value_inj h₁ h₂ (hv₁.trans hv₂.symm)
  subst heq
  rw [ha₁] at ha₂
  simp at ha₂

/-- The auto-path candidate, when present, is a free auto-assignable row. -/
theorem minFreeAuto_spec {s : PoolState} {v : Nat} (h : minFreeAuto s = some v) :
    ∃ pv ∈ s.values, pv.value = v ∧ pv.isFreeAuto = true := by
  have hmem : v ∈ freeAutoValues s :=
    List.min?_mem (fun a b => by rw [Nat.min_def]; split <;> simp) h
  simp only [freeAutoValues, List.mem_map, List.mem_filter] at hmem
  obtain ⟨pv, ⟨hpv, hfa⟩, hval⟩ := hmem
  exact ⟨pv, hpv, hval, hfa⟩

/-- The auto path has a candidate whenever a free auto-assignable row exists. -/
theorem minFreeAuto_isSome {s : PoolState} (h : 0 < freeAutoCount s) :
    ∃ v, minFreeAuto s = some v := by
  cases hm : minFreeAuto s with
  | some v => exact ⟨v, rfl⟩
  | none =>
    exfalso
    have : freeAutoValues s = [] := List.min?_eq_none_iff.mp hm
    simp only [freeAutoValues] at this
    rw [List.map_eq_nil_iff] at this
    simp [freeAutoCount, this] at h

/-- Shape of a successful auto-path allocation. -/
theorem allocate_auto_ok {s : PoolState} {ot : OwnerType} {oid : String} {v : Nat}
    {s' : PoolState} (h : allocate s ot oid none = .ok (v, s')) :
    minFreeAuto s = some v ∧ s' = setAllocated s v ⟨ot, oid⟩ := by
  unfold allocate at h
  cases hmin : minFreeAuto s with
  | none => rw [hmin] at h; exact absurd h (by simp)
  | some w =>
    rw [hmin] at h
    simp only [Except.ok.injEq, Prod.mk.injEq] at h
    obtain ⟨h1, h2⟩ := h
    subst h1
    exact ⟨rfl, h2.symm⟩

/-- A successful auto-path allocation picks a free value and allocates it. -/
theorem allocate_auto_free {s : PoolState} {ot : OwnerType} {oid : String} {v : Nat}
    {s' : PoolState} (h : allocate s ot oid none = .ok (v, s')) :
    isFreeVal s v := by
  obtain ⟨hmin, _⟩ := allocate_auto_ok h
  obtain ⟨pv, hpv, hval, hfa⟩ := minFreeAuto_spec hmin
  simp only [PoolValue.isFreeAuto, Bool.and_eq_true, Option.isNone_iff_eq_none] at hfa
  exact ⟨pv, hpv, hval, hfa.2⟩

/-- Two pool states with the same rows are equal. -/
theorem PoolState.ext' {s t : PoolState} (h : s.values = t.values) : s = t := by
  cases s
  cases t
  cases h
  rfl

/-- A map that fixes every element of the list is the identity on it. -/
theorem map_eq_self {α : Type} {l : List α} {f : α → α} (h : ∀ x ∈ l, f x = x) :
    l.map f = l := by
  rw [List.map_congr_left h]
  exact List.map_id l

/-- Splitting a well-formed pool at the unique row carrying value `v`: rows on
either side carry other values. -/
theorem WF.split_at {s : PoolState} (hs : WF s) {pv₀ : PoolValue}
    (hmem : pv₀ ∈ s.values) :
    ∃ l₁ l₂, s.values = l₁ ++ pv₀ :: l₂
      ∧ (∀ pv ∈ l₁, pv.value ≠ pv₀.value) ∧ (∀ pv ∈ l₂, pv.value ≠ pv₀.value) := by
  obtain ⟨l₁, l₂, hsplit⟩ := List.append_of_mem hmem
  refine ⟨l₁, l₂, hsplit, ?_, ?_⟩ <;> (
    have hnd := hs
    unfold WF at hnd
    rw [hsplit] at hnd
    simp only [List.map_append, List.map_cons] at hnd
    obtain ⟨nd₁, nd₂, disj⟩ := List.nodup_append.mp hnd
    intro pv hpv hv)
  · exact disj (List.mem_map_of_mem _ hpv) (by simp [hv])
  · exact (List.nodup_cons.mp nd₂).1 (hv ▸ List.mem_map_of_mem _ hpv)

/-- Allocating removes exactly one row from the free auto-assignable count. -/
theorem freeAutoCount_setAllocated {s : PoolState} (hs : WF s) {v : Nat}
    {pv₀ : PoolValue} (hmem : pv₀ ∈ s.values) (hval : pv₀.value = v)
    (hfa : pv₀.isFreeAuto = true) (a : Allocation) :
    freeAutoCount (setAllocated s v a) + 1 = freeAutoCount s := by
  obtain ⟨l₁, l₂, hsplit, hnotv₁, hnotv₂⟩ := hs.split_at hmem
  rw [hval] at hnotv₁ hnotv₂
  have hmap : (setAllocated s v a).values
      = l₁ ++ ({ pv₀ with alloc := some a } : PoolValue) :: l₂ := by
    simp only [setAllocated, hsplit, List.map_append, List.map_cons]
    congr 1
    · exact map_eq_self (fun pv hpv => by simp [beq_iff_eq, hnotv₁ pv hpv])
    · congr 1
      · simp [beq_iff_eq, hval]
      · exact map_eq_self (fun pv hpv => by simp [beq_iff_eq, hnotv₂ pv hpv])
  unfold freeAutoCount
  rw [hmap, hsplit]
  have h₀ : ({ pv₀ with alloc := some a } : PoolValue).isFreeAuto = false := by
    simp [PoolValue.isFreeAuto]
  simp only [List.filter_append, List.filter_cons, h₀, hfa, if_true, if_false,
    Bool.false_eq_true, List.length_append, List.length_cons]
  omega

/-- An allocated value stays allocated when another (or the same) value is
allocated. -/
theorem isUsedVal_setAllocated_of {s : PoolState} {w v : Nat} {a : Allocation}
    (h : isUsedVal s w) : isUsedVal (setAllocated s v a) w := by
  obtain ⟨pv, hpv, hval, hsome⟩ := h
  by_cases hv : pv.value = v
  · exact ⟨{ pv with alloc := some a }, by
      simpa [setAllocated, List.mem_map] using ⟨pv, hpv, by simp [hv]⟩, hval, by simp⟩
  · exact ⟨pv, by
      simpa [setAllocated, List.mem_map] using ⟨pv, hpv, by simp [hv]⟩, hval, hsome⟩

/-- The allocated row is allocated afterwards. -/
theorem isUsedVal_setAllocated_self {s : PoolState} {v : Nat} {pv₀ : PoolValue}
    (hmem : pv₀ ∈ s.values) (hval : pv₀.value = v) (a : Allocation) :
    isUsedVal (setAllocated s v a) v := by
  refine ⟨{ pv₀ with alloc := some a }, ?_, hval, by simp⟩
  simpa [setAllocated, List.mem_map] using ⟨pv₀, hmem, by simp [hval]⟩

/-- A value free after `setAllocated` was already free before. -/
theorem isFreeVal_of_setAllocated {s : PoolState} {w v : Nat} {a : Allocation}
    (h : isFreeVal (setAllocated s v a) w) : isFreeVal s w := by
  obtain ⟨pv', hpv', hval, hnone⟩ := h
  simp only [setAllocated, List.mem_map] at hpv'
  obtain ⟨pv, hpv, hEq⟩ := hpv'
  by_cases hv : pv.value = v
  · rw [← hEq] at hnone
    simp [hv] at hnone
  · rw [← hEq] at hval hnone
    simp only [beq_iff_eq, hv, if_false] at hval hnone
    exact ⟨pv, hpv, hval, hnone⟩

/-- The auto path succeeds whenever a free auto-assignable row exists. -/
theorem allocate_auto_succeeds {s : PoolState} (h : 0 < freeAutoCount s)
    (ot : OwnerType) (oid : String) :
    ∃ v, allocate s ot oid none = .ok (v, setAllocated s v ⟨ot, oid⟩) := by
  obtain ⟨v, hmin⟩ := minFreeAuto_isSome h
  exact ⟨v, by simp [allocate, hmin]⟩

/-- A committed history of auto-path allocations, one committed transaction
per entry of `owners` (the serialized interleaving of the parallel test's
tasks): each step allocates for its owner and commits. -/
def allocSeq (s : PoolState) : List (OwnerType × String) →
    Except ResourcePoolError (List Nat × PoolState)
  | [] => .ok ([], s)
  | o :: os =>
    match allocate s o.1 o.2 none with
    | .error e => .error e
    | .ok (v, s₁) =>
      match allocSeq s₁ os with
      | .error e => .error e
      | .ok (vs, s') => .ok (v :: vs, s')

/-- An allocated value stays allocated along a committed history. -/
theorem allocSeq_used_mono {os : List (OwnerType × String)} {s s' : PoolState}
    {vs : List Nat} {w : Nat} (h : allocSeq s os = .ok (vs, s'))
    (hw : isUsedVal s w) : isUsedVal s' w := by
  induction os generalizing s vs with
  | nil =>
    simp only [allocSeq, Except.ok.injEq, Prod.mk.injEq] at h
    exact h.2 ▸ hw
  | cons o os ih =>
    simp only [allocSeq] at h
    cases halloc : allocate s o.1 o.2 none with
    | error e => rw [halloc] at h; exact absurd h (by simp)
    | ok p =>
      rw [halloc] at h
      obtain ⟨v, s₁⟩ := p
      dsimp only at h
      cases hrest : allocSeq s₁ os with
      | error e => rw [hrest] at h; exact absurd h (by simp)
      | ok q =>
        rw [hrest] at h
        obtain ⟨vs₁, s₂⟩ := q
        simp only [Except.ok.injEq, Prod.mk.injEq] at h
        obtain ⟨hmin, hs₁⟩ := allocate_auto_ok halloc
        obtain ⟨h1, h2⟩ := h
        subst h2
        exact ih hrest (hs₁ ▸ isUsedVal_setAllocated_of hw)

/-- Every committed history of successful allocations returns pairwise
distinct values, each free at the start and allocated at the end. -/
theorem allocSeq_nodup {os : List (OwnerType × String)} {s s' : PoolState}
    {vs : List Nat} (hs : WF s) (h : allocSeq s os = .ok (vs, s')) :
    vs.Nodup ∧ ∀ v ∈ vs, isFreeVal s v ∧ isUsedVal s' v := by
  induction os generalizing s vs with
  | nil =>
    simp only [allocSeq, Except.ok.injEq, Prod.mk.injEq] at h
    rw [← h.1]
    exact ⟨List.nodup_nil, by simp⟩
  | cons o os ih =>
    simp only [allocSeq] at h
    cases halloc : allocate s o.1 o.2 none with
    | error e => rw [halloc] at h; exact absurd h (by simp)
    | ok p =>
      rw [halloc] at h
      obtain ⟨v, s₁⟩ := p
      dsimp only at h
      cases hrest : allocSeq s₁ os with
      | error e => rw [hrest] at h; exact absurd h (by simp)
      | ok q =>
        rw [hrest] at h
        obtain ⟨vs₁, s₂⟩ := q
        simp only [Except.ok.injEq, Prod.mk.injEq] at h
        obtain ⟨hvs, hs'⟩ := h
        subst hs'
        obtain ⟨hmin, hs₁⟩ := allocate_auto_ok halloc
        obtain ⟨pv₀, hpv₀, hval₀, hfa₀⟩ := minFreeAuto_spec hmin
        have hwf₁ : WF s₁ := hs₁ ▸ WF_setAllocated hs v _
        obtain ⟨hnd₁, hprop₁⟩ := ih hwf₁ hrest
        have husedv : isUsedVal s₁ v :=
          hs₁ ▸ isUsedVal_setAllocated_self hpv₀ hval₀ _
        have hfree : isFreeVal s v := by
          have := hfa₀
          simp only [PoolValue.isFreeAuto, Bool.and_eq_true,
            Option.isNone_iff_eq_none] at this
          exact ⟨pv₀, hpv₀, hval₀, this.2⟩
        rw [← hvs]
        constructor
        · rw [List.nodup_cons]
          refine ⟨fun hv => ?_, hnd₁⟩
          exact not_free_and_used hwf₁ (hprop₁ v hv).1 husedv
        · intro w hw
          rcases List.mem_cons.mp hw with hwv | hw₁
          · subst hwv
            exact ⟨hfree, allocSeq_used_mono hrest husedv⟩
          · obtain ⟨hfw, huw⟩ := hprop₁ w hw₁
            exact ⟨isFreeVal_of_setAllocated (hs₁ ▸ hfw), huw⟩

/-- A committed history succeeds end to end whenever the pool starts with at
least as many free auto-assignable rows as there are allocations, and each
step removes exactly one of them. -/
theorem allocSeq_succeeds {os : List (OwnerType × String)} {s : PoolState}
    (hs : WF s) (h : os.length ≤ freeAutoCount s) :
    ∃ vs s', allocSeq s os = .ok (vs, s') ∧ vs.length = os.length
      ∧ WF s' ∧ freeAutoCount s' + os.length = freeAutoCount s := by
  induction os generalizing s with
  | nil => exact ⟨[], s, rfl, rfl, hs, by simp⟩
  | cons o os ih =>
    have hpos : 0 < freeAutoCount s := lt_of_lt_of_le (Nat.succ_pos _) h
    obtain ⟨v, halloc⟩ := allocate_auto_succeeds hpos o.1 o.2
    obtain ⟨hmin, _⟩ := allocate_auto_ok halloc
    obtain ⟨pv₀, hpv₀, hval₀, hfa₀⟩ := minFreeAuto_spec hmin
    have hcount : freeAutoCount (setAllocated s v ⟨o.1, o.2⟩) + 1 = freeAutoCount s :=
      freeAutoCount_setAllocated hs hpv₀ hval₀ hfa₀ _
    have hwf₁ : WF (setAllocated s v ⟨o.1, o.2⟩) := WF_setAllocated hs v _
    have hle : os.length ≤ freeAutoCount (setAllocated s v ⟨o.1, o.2⟩) := by
      simp only [List.length_cons] at h
      omega
    obtain ⟨vs, s', hseq, hlen, hwf', hcount'⟩ := ih hwf₁ hle
    refine ⟨v :: vs, s', ?_, by simp [hlen], hwf', by
      simp only [List.length_cons]; omega⟩
    simp only [allocSeq, halloc, hseq]

/-- The committed transactions of the parallel test, serialized: 50 tasks
(owner ids `0`..`49`) of 100 auto allocations each, 5,000 in all; each list
entry is one committed transaction. -/
def parallelOwners : List (OwnerType × String) :=
  (List.range 5000).map (fun i => (OwnerType.machine, toString (i / 100)))

/-- The parallel test's pool: 5,000 auto-assignable integer values `1..5000`. -/
def parallelPool : PoolState :=
  populate PoolState.empty (List.range' 1 5000) true

theorem parallelPool_eq :
    parallelPool = ⟨(List.range' 1 5000).map (fun v => ⟨v, true, none⟩)⟩ := by
  unfold parallelPool
  rw [populate_fresh (by simp [PoolState.empty]) (List.nodup_range' 1 5000)]
  simp [PoolState.empty]

theorem parallelPool_WF : WF parallelPool := by
  unfold WF
  rw [parallelPool_eq]
  simp only [List.map_map]
  have : (PoolValue.value ∘ fun v => (⟨v, true, none⟩ : PoolValue)) = id := rfl
  rw [this, List.map_id]
  exact List.nodup_range' 1 5000

theorem parallelPool_freeAutoCount : freeAutoCount parallelPool = 5000 := by
  unfold freeAutoCount
  rw [parallelPool_eq]
  rw [List.filter_map]
  have : (PoolValue.isFreeAuto ∘ fun v => (⟨v, true, none⟩ : PoolValue))
      = fun _ => true := rfl
  rw [this, List.filter_true, List.length_map, List.length_range']

/-- Claim C1: in the parallel-allocation scenario — a pool of 5,000
auto-assignable integer values, 50 tasks of 100 auto allocations each, every
allocation in its own committed transaction (serialized here, as each
transaction commits independently) — all 5,000 allocations succeed, no two
return the same value, and the union of the returned values has cardinality
exactly 5,000. -/
theorem test_parallel_distinct_values :
    ∃ vs s', allocSeq parallelPool parallelOwners = .ok (vs, s')
      ∧ vs.Nodup ∧ vs.length = 5000 ∧ vs.toFinset.card = 5000 := by
  have hlen : parallelOwners.length = 5000 := by
    simp [parallelOwners]
  have hle : parallelOwners.length ≤ freeAutoCount parallelPool := by
    rw [hlen, parallelPool_freeAutoCount]
  obtain ⟨vs, s', hseq, hlenvs, _, _⟩ := allocSeq_succeeds parallelPool_WF hle
  obtain ⟨hnd, _⟩ := allocSeq_nodup parallelPool_WF hseq
  refine ⟨vs, s', hseq, hnd, ?_, ?_⟩
  · rw [hlenvs, hlen]
  · rw [List.toFinset_card_of_nodup hnd, hlenvs, hlen]

/-- How the caller ends its ambient transaction. -/
inductive TxnEnd where
  | commit
  | rollback
  deriving DecidableEq, Repr

/-- Modelled from the spec: an operation running inside the caller's
transaction against the committed pool state (§4.5, §5): on commit the
operation's result state becomes committed; on rollback (or on error, which
aborts the transaction) the committed state is untouched — store-enforced,
no cleanup code runs in the core. -/
def runTxn (c : PoolState)
    (f : PoolState → Except ResourcePoolError (Nat × PoolState)) : TxnEnd → PoolState
  | .rollback => c
  | .commit =>
    match f c with
    | .ok (_, s') => s'
    | .error _ => c

/-- Claim C2: a transaction that allocates and then rolls back leaves the
committed state exactly as it was: with no prior allocations the stats still
show `used = 0`, the allocated value is free again, and a subsequent
allocate in a new transaction obtains the very same value. -/
theorem allocate_rollback_restores (s : PoolState) (ot ot' : OwnerType)
    (oid oid' : String) (v : Nat) (s' : PoolState)
    (hused : (stats s).used = 0)
    (halloc : allocate s ot oid none = .ok (v, s')) :
    runTxn s (fun t => allocate t ot oid none) .rollback = s
    ∧ (stats (runTxn s (fun t => allocate t ot oid none) .rollback)).used = 0
    ∧ isFreeVal s v
    ∧ allocate s ot' oid' none = .ok (v, setAllocated s v ⟨ot', oid'⟩) := by
  obtain ⟨hmin, _⟩ := allocate_auto_ok halloc
  exact ⟨rfl, hused, allocate_auto_free halloc, by simp [allocate, hmin]⟩

theorem allocate_rollback_restores_witness :
    runTxn (populate PoolState.empty [1] true)
        (fun t => allocate t OwnerType.machine "my_id" none) .rollback
      = populate PoolState.empty [1] true
    ∧ isFreeVal (populate PoolState.empty [1] true) 1 := by
  have h := allocate_rollback_restores (populate PoolState.empty [1] true)
    OwnerType.machine OwnerType.machine "my_id" "my_id" 1
    (setAllocated (populate PoolState.empty [1] true) 1 ⟨OwnerType.machine, "my_id"⟩)
    (by decide) (by rfl)
  exact ⟨h.1, h.2.2.1⟩

/-- Claim C6: when no free auto-assignable value remains — even if free
non-auto-assignable values are present — the auto path fails with `Empty`. -/
theorem allocate_auto_empty (s : PoolState) (ot : OwnerType) (oid : String)
    (h : ∀ pv ∈ s.values, pv.autoAssignable = true → pv.alloc.isSome) :
    allocate s ot oid none = .error .Empty := by
  have hfilter : s.values.filter PoolValue.isFreeAuto = [] := by
    rw [List.filter_eq_nil_iff]
    intro pv hpv
    simp only [PoolValue.isFreeAuto, Bool.and_eq_true, Option.isNone_iff_eq_none, not_and]
    intro hauto hnone
    have := h pv hpv hauto
    rw [hnone] at this
    simp at this
  have hmin : minFreeAuto s = none := by
    simp [minFreeAuto, freeAutoValues, hfilter]
  simp [allocate, hmin]

theorem allocate_auto_empty_witness :
    allocate ⟨[⟨1, true, some ⟨OwnerType.machine, "123"⟩⟩, ⟨2, false, none⟩]⟩
      OwnerType.machine "id456" none = .error .Empty :=
  allocate_auto_empty _ OwnerType.machine "id456" (by decide)

/-- Claim C7: the manual path allocates any free value of the pool, whatever
its auto-assignable flag (the value's canonical string is its identity in
this embedding), and the `Empty` error never arises on the manual path. -/
theorem allocate_manual_ok (s : PoolState) (ot : OwnerType) (oid : String)
    (v : Nat) (pv : PoolValue)
    (hfind : s.values.find? (fun pv => pv.value == v) = some pv)
    (hfree : pv.alloc = none) :
    allocate s ot oid (some v) = .ok (v, setAllocated s v ⟨ot, oid⟩)
    ∧ ∀ (t : PoolState) (ot' : OwnerType) (oid' : String) (w : Nat),
        allocate t ot' oid' (some w) ≠ .error .Empty := by
  constructor
  · simp [allocate, hfind, hfree]
  · intro t ot' oid' w
    unfold allocate
    dsimp only
    cases hf : t.values.find? (fun pv => pv.value == w) with
    | none => simp
    | some pv' =>
      by_cases hsome : pv'.alloc.isSome <;> simp [hsome]

theorem allocate_manual_ok_witness :
    allocate ⟨[⟨1, true, some ⟨OwnerType.machine, "123"⟩⟩, ⟨2, false, none⟩]⟩
        OwnerType.machine "123" (some 2)
      = .ok (2, setAllocated ⟨[⟨1, true, some ⟨OwnerType.machine, "123"⟩⟩, ⟨2, false, none⟩]⟩
          2 ⟨OwnerType.machine, "123"⟩) :=
  (allocate_manual_ok _ OwnerType.machine "123" 2 ⟨2, false, none⟩ (by decide) rfl).1

/-- Every successful allocation — auto or manual — picks a free row of the
pool and marks exactly it allocated. -/
theorem allocate_ok_shape {s : PoolState} {ot : OwnerType} {oid : String}
    {req : Option Nat} {v : Nat} {s' : PoolState}
    (h : allocate s ot oid req = .ok (v, s')) :
    ∃ pv₀ ∈ s.values, pv₀.value = v ∧ pv₀.alloc = none
      ∧ s' = setAllocated s v ⟨ot, oid⟩ := by
  cases req with
  | none =>
    obtain ⟨hmin, hs'⟩ := allocate_auto_ok h
    obtain ⟨pv₀, hmem, hval, hfa⟩ := minFreeAuto_spec hmin
    simp only [PoolValue.isFreeAuto, Bool.and_eq_true, Option.isNone_iff_eq_none] at hfa
    exact ⟨pv₀, hmem, hval, hfa.2, hs'⟩
  | some w =>
    unfold allocate at h
    dsimp only at h
    cases hf : s.values.find? (fun pv => pv.value == w) with
    | none => rw [hf] at h; exact absurd h (by simp)
    | some pv₀ =>
      rw [hf] at h
      dsimp only at h
      by_cases hsome : pv₀.alloc.isSome
      · rw [if_pos hsome] at h
        exact absurd h (by simp)
      · rw [if_neg hsome] at h
        simp only [Except.ok.injEq, Prod.mk.injEq] at h
        obtain ⟨hv, hs'⟩ := h
        have hvalw : pv₀.value = w := by
          have := List.find?_some hf
          simpa [beq_iff_eq] using this
        exact ⟨pv₀, List.mem_of_find?_eq_some hf, hv ▸ hvalw,
          Option.not_isSome_iff_eq_none.mp hsome, by rw [← hv]; exact hs'.symm⟩

/-- Releasing the value just allocated restores the pool state exactly. -/
theorem release_setAllocated {s : PoolState} (hs : WF s) {v : Nat}
    {pv₀ : PoolValue} (hmem : pv₀ ∈ s.values) (hval : pv₀.value = v)
    (hfree : pv₀.alloc = none) (a : Allocation) :
    release (setAllocated s v a) v = .ok s := by
  obtain ⟨l₁, l₂, hsplit, hn₁, hn₂⟩ := hs.split_at hmem
  rw [hval] at hn₁ hn₂
  have hmap : (setAllocated s v a).values
      = l₁ ++ ({ pv₀ with alloc := some a } : PoolValue) :: l₂ := by
    simp only [setAllocated, hsplit, List.map_append, List.map_cons]
    congr 1
    · exact map_eq_self (fun pv hpv => by simp [beq_iff_eq, hn₁ pv hpv])
    · congr 1
      · simp [beq_iff_eq, hval]
      · exact map_eq_self (fun pv hpv => by simp [beq_iff_eq, hn₂ pv hpv])
  have hfind : (setAllocated s v a).values.find? (fun pv => pv.value == v)
      = some { pv₀ with alloc := some a } := by
    rw [hmap, List.find?_append]
    have h₁ : l₁.find? (fun pv => pv.value == v) = none := by
      rw [List.find?_eq_none]
      intro pv hpv
      simp [beq_iff_eq, hn₁ pv hpv]
    rw [h₁]
    simp [List.find?_cons, beq_iff_eq, hval]
  have hid : ∀ pv ∈ s.values,
      ((fun pv => if pv.value == v then { pv with alloc := none } else pv)
        ∘ (fun pv => if pv.value == v then { pv with alloc := some a } else pv)) pv = pv := by
    intro pv hpv
    by_cases hv : pv.value = v
    · have heq : pv = pv₀ := hs.value_inj hpv hmem (hv.trans hval.symm)
      subst heq
      obtain ⟨pval, pauto, palloc⟩ := pv
      simp only [PoolValue.alloc] at hfree
      subst hfree
      simp only [PoolValue.value] at hv
      simp [Function.comp_apply, hv]
    · simp [Function.comp_apply, beq_iff_eq, hv]
  have hclear : clearAllocated (setAllocated s v a) v = s := by
    have hcomp : (clearAllocated (setAllocated s v a) v).values
        = (s.values.map (fun pv => if pv.value == v then { pv with alloc := some a } else pv)).map
          (fun pv => if pv.value == v then { pv with alloc := none } else pv) := rfl
    rw [List.map_map] at hcomp
    exact PoolState.ext' (hcomp.trans (map_eq_self hid))
  unfold release
  rw [hfind]
  simp [hclear]

/-- Claim C8: allocating a value and releasing it inside the same transaction
is a no-op — the pool state, hence every `stats` counter, returns to what it
was before the allocation. -/
theorem allocate_release_noop (s : PoolState) (ot : OwnerType) (oid : String)
    (req : Option Nat) (v : Nat) (s' : PoolState) (hs : WF s)
    (halloc : allocate s ot oid req = .ok (v, s')) :
    release s' v = .ok s
    ∧ ∀ s'', release s' v = .ok s'' → stats s'' = stats s := by
  obtain ⟨pv₀, hmem, hval, hfree, hs'⟩ := allocate_ok_shape halloc
  have hrel : release s' v = .ok s := by
    rw [hs']
    exact release_setAllocated hs hmem hval hfree _
  refine ⟨hrel, fun s'' h => ?_⟩
  rw [hrel] at h
  simp only [Except.ok.injEq] at h
  rw [← h]

theorem allocate_release_noop_witness :
    release (setAllocated ⟨[⟨1, true, none⟩, ⟨2, false, none⟩]⟩ 1
        ⟨OwnerType.machine, "123"⟩) 1
      = .ok ⟨[⟨1, true, none⟩, ⟨2, false, none⟩]⟩ :=
  (allocate_release_noop ⟨[⟨1, true, none⟩, ⟨2, false, none⟩]⟩ OwnerType.machine "123"
    none 1 (setAllocated ⟨[⟨1, true, none⟩, ⟨2, false, none⟩]⟩ 1 ⟨OwnerType.machine, "123"⟩)
    (by unfold WF; decide) (by rfl)).1

/-- Modelled from the spec: an owner row of the owner bridge (§4.7) — here a
VPC with the pool value (its VNI) it holds. -/
structure OwnerRecord where
  ownerId : String
  heldValue : Nat
  deriving DecidableEq, Repr

/-- Modelled from the spec: the state the owner bridge acts on — the owner
rows together with the backing pool (§4.7). -/
structure BridgeState where
  owners : List OwnerRecord
  pool : PoolState
  deriving DecidableEq, Repr

/-- Modelled from the spec: the delete path of the owner bridge (§4.7, not in
the published sources): load the owner row; if missing fail `NotFound`
without touching pools; otherwise release the held resource and delete the
owner row. -/
def deleteOwner (bs : BridgeState) (oid : String) : Except ResourcePoolError BridgeState :=
  match bs.owners.find? (fun o => o.ownerId == oid) with
  | none => .error .NotFound
  | some o =>
    match release bs.pool o.heldValue with
    | .error e => .error e
    | .ok p => .ok ⟨bs.owners.filter (fun o' => !(o'.ownerId == oid)), p⟩

/-- The delete RPC handler: the operation runs inside its own transaction,
which is rolled back when the handler fails, leaving the committed state
untouched. -/
def deleteOwnerRpc (bs : BridgeState) (oid : String) : BridgeState :=
  match deleteOwner bs oid with
  | .ok bs' => bs'
  | .error _ => bs

/-- Claim C5: deleting an already-deleted owner fails with `NotFound` and
releases nothing: when the owner row is absent and its former value has been
re-allocated (pool fully used, `used = 1`, `free = 0`), the second delete
leaves the committed state — in particular the pool's stats — unchanged. -/
theorem redelete_owner_not_found (bs : BridgeState) (oid : String)
    (habsent : bs.owners.find? (fun o => o.ownerId == oid) = none)
    (hused : (stats bs.pool).used = 1) (hfree : (stats bs.pool).free = 0) :
    deleteOwner bs oid = .error .NotFound
    ∧ deleteOwnerRpc bs oid = bs
    ∧ (stats (deleteOwnerRpc bs oid).pool).used = 1
    ∧ (stats (deleteOwnerRpc bs oid).pool).free = 0 := by
  have hdel : deleteOwner bs oid = .error .NotFound := by
    unfold deleteOwner
    rw [habsent]
  have hrpc : deleteOwnerRpc bs oid = bs := by
    unfold deleteOwnerRpc
    rw [hdel]
  exact ⟨hdel, hrpc, by rw [hrpc]; exact hused, by rw [hrpc]; exact hfree⟩

theorem redelete_owner_not_found_witness :
    deleteOwner ⟨[⟨"testalloc", 1⟩], ⟨[⟨1, true, some ⟨OwnerType.vpc, "testalloc"⟩⟩]⟩⟩
        "vpc1" = .error .NotFound
    ∧ deleteOwnerRpc ⟨[⟨"testalloc", 1⟩], ⟨[⟨1, true, some ⟨OwnerType.vpc, "testalloc"⟩⟩]⟩⟩
        "vpc1" = ⟨[⟨"testalloc", 1⟩], ⟨[⟨1, true, some ⟨OwnerType.vpc, "testalloc"⟩⟩]⟩⟩ := by
  have h := redelete_owner_not_found
    ⟨[⟨"testalloc", 1⟩], ⟨[⟨1, true, some ⟨OwnerType.vpc, "testalloc"⟩⟩]⟩⟩ "vpc1"
    (by decide) (by decide) (by decide)
  exact ⟨h.1, h.2.1⟩

/-- The numeric denotation of a dotted-decimal IPv4 address. -/
def ipv4Nat (a b c d : Nat) : Nat := ((a * 256 + b) * 256 + c) * 256 + d

/-- Growing an empty pool with pairwise-distinct fresh values leaves every
counter free: the seeded rows are all auto-assignable and unallocated. -/
theorem stats_populate_empty (vs : List Nat) (hnd : vs.Nodup) :
    stats (populate PoolState.empty vs true)
      = ⟨0, vs.length, vs.length, 0, 0, 0⟩ := by
  rw [populate_fresh (by simp [PoolState.empty]) hnd]
  unfold stats
  simp only [PoolState.empty, List.nil_append, List.filter_map]
  have h₁ : ((fun pv => pv.alloc.isSome) ∘ fun v => (⟨v, true, none⟩ : PoolValue))
      = fun _ => false := rfl
  have h₂ : ((fun pv => pv.alloc.isNone) ∘ fun v => (⟨v, true, none⟩ : PoolValue))
      = fun _ => true := rfl
  have h₃ : ((fun pv => pv.autoAssignable && pv.alloc.isNone)
      ∘ fun v => (⟨v, true, none⟩ : PoolValue)) = fun _ => true := rfl
  have h₄ : ((fun pv => pv.autoAssignable && pv.alloc.isSome)
      ∘ fun v => (⟨v, true, none⟩ : PoolValue)) = fun _ => false := rfl
  have h₅ : ((fun pv => !pv.autoAssignable && pv.alloc.isNone)
      ∘ fun v => (⟨v, true, none⟩ : PoolValue)) = fun _ => false := rfl
  have h₆ : ((fun pv => !pv.autoAssignable && pv.alloc.isSome)
      ∘ fun v => (⟨v, true, none⟩ : PoolValue)) = fun _ => false := rfl
  rw [h₁, h₂, h₃, h₄, h₅, h₆]
  simp [List.filter_true, List.filter_false]

/-- Modelled from the spec: the range enumerator of the pool-definition
parser (C2; not in the published sources).  The spec's §4.2 text says a range
enumerates `start ≤ v ≤ end`, but its own testable property (§8 scenario 1)
and `test_define_range` pin the observed count at 255 values for
`172.0.1.0`–`172.0.1.255`, so the enumeration implemented is the half-open
`start ≤ v < end`. -/
def rangeValues (vstart vend : Nat) : List Nat :=
  List.range' vstart (vend - vstart)

/-- Growing a pool from one `(start, end)` range: the enumerated values are
populated as auto-assignable. -/
def growRange (s : PoolState) (vstart vend : Nat) : PoolState :=
  populate s (rangeValues vstart vend) true

/-- Modelled from the spec: the CIDR enumerator of the pool-definition parser
(C2; not in the published sources): all addresses of the block except the
broadcast address, so a `/24` yields exactly 255 values (§4.2, §9 open
question, pinned by `test_define_prefix`). -/
def cidrValues (base : Nat) (len : Nat) : List Nat :=
  List.range' base (2 ^ (32 - len) - 1)

/-- Growing a pool from an IPv4 CIDR block. -/
def growCidr (s : PoolState) (base len : Nat) : PoolState :=
  populate s (cidrValues base len) true

/-- Claim C3, counterexample: growing a fresh IPv4 pool with the range
`172.0.1.0`–`172.0.1.255` does NOT yield 256 free values as the claim
states: the stats afterwards are `{used: 0, free: 255, auto_assign_free:
255}` — exactly what `test_define_range` asserts — and `free ≠ 256`. -/
theorem define_range_not_256 :
    stats (growRange PoolState.empty (ipv4Nat 172 0 1 0) (ipv4Nat 172 0 1 255))
      ≠ ⟨0, 256, 256, 0, 0, 0⟩
    ∧ (stats (growRange PoolState.empty (ipv4Nat 172 0 1 0) (ipv4Nat 172 0 1 255))).free
      = 255 := by
  have hlen : (rangeValues (ipv4Nat 172 0 1 0) (ipv4Nat 172 0 1 255)).length = 255 := by
    unfold rangeValues
    rw [List.length_range']
    decide
  have h := stats_populate_empty (rangeValues (ipv4Nat 172 0 1 0) (ipv4Nat 172 0 1 255))
    (List.nodup_range' _ _)
  unfold growRange
  rw [h, hlen]
  exact ⟨by simp, rfl⟩

/-- Claim C3, as amended: the range `172.0.1.0`–`172.0.1.255` enumerates the
255 values `start ≤ v < end` (the end of the range is not included by the
enumerator the tests pin), so a fresh pool grown from it reports `used = 0`,
`free = 255`, `auto_assign_free = 255`. -/
theorem define_range_yields_255 :
    stats (growRange PoolState.empty (ipv4Nat 172 0 1 0) (ipv4Nat 172 0 1 255))
      = ⟨0, 255, 255, 0, 0, 0⟩
    ∧ ∀ v, v ∈ rangeValues (ipv4Nat 172 0 1 0) (ipv4Nat 172 0 1 255)
        ↔ ipv4Nat 172 0 1 0 ≤ v ∧ v < ipv4Nat 172 0 1 255 := by
  have hlen : (rangeValues (ipv4Nat 172 0 1 0) (ipv4Nat 172 0 1 255)).length = 255 := by
    unfold rangeValues
    rw [List.length_range']
    decide
  have h := stats_populate_empty (rangeValues (ipv4Nat 172 0 1 0) (ipv4Nat 172 0 1 255))
    (List.nodup_range' _ _)
  constructor
  · unfold growRange
    rw [h, hlen]
  · intro v
    have e1 : ipv4Nat 172 0 1 0 = 2885681408 := by decide
    have e2 : ipv4Nat 172 0 1 255 = 2885681663 := by decide
    unfold rangeValues
    rw [e1, e2, List.mem_range'_1]

/-- Claim C4: growing a fresh IPv4 pool with the CIDR block `172.0.1.0/24`
populates exactly 255 values, so the stats report `used = 0`, `free = 255`,
`auto_assign_free = 255` — matching `test_define_prefix`. -/
theorem define_cidr24_yields_255 :
    (cidrValues (ipv4Nat 172 0 1 0) 24).length = 255
    ∧ stats (growCidr PoolState.empty (ipv4Nat 172 0 1 0) 24)
      = ⟨0, 255, 255, 0, 0, 0⟩ := by
  have hlen : (cidrValues (ipv4Nat 172 0 1 0) 24).length = 255 := by
    unfold cidrValues
    rw [List.length_range']
    decide
  have h := stats_populate_empty (cidrValues (ipv4Nat 172 0 1 0) 24)
    (List.nodup_range' _ _)
  exact ⟨hlen, by unfold growCidr; rw [h, hlen]⟩

/-- The canonical dotted-decimal string of an IPv4 address. -/
def ipv4Repr (n : Nat) : String :=
  Nat.repr (n / 16777216 % 256) ++ "." ++ Nat.repr (n / 65536 % 256) ++ "."
    ++ Nat.repr (n / 256 % 256) ++ "." ++ Nat.repr (n % 256)

/-- Modelled from the spec: the value codec's `encode` (§4.1): the canonical
string of a value under its pool's type.  `Integer` values print in decimal;
`Ipv4` in dotted decimal; opaque `String` pool values are identified by
their index in this embedding. -/
def encodeValue : ValueType → Nat → String
  | .ipv4, n => ipv4Repr n
  | _, n => Nat.repr n

/-- One named pool of the registry: its name, value type, and rows. -/
structure PoolEntry where
  name : String
  vtype : ValueType
  state : PoolState
  deriving DecidableEq, Repr

/-- Modelled from the spec: one element of the `all()` listing (§4.6):
`PoolSnapshot { name, value_type, min, max, stats }`. -/
structure PoolSnapshot where
  name : String
  value_type : ValueType
  min : String
  max : String
  stats : ResourcePoolStats
  deriving DecidableEq, Repr

/-- The smallest value currently in the pool. -/
def poolMinVal (s : PoolState) : Option Nat := (s.values.map PoolValue.value).min?

/-- The largest value currently in the pool. -/
def poolMaxVal (s : PoolState) : Option Nat := (s.values.map PoolValue.value).max?

/-- The snapshot of one pool: canonical strings of its extremes, plus its
stats, read at the same snapshot. -/
def snapshotOf (e : PoolEntry) : PoolSnapshot :=
  ⟨e.name, e.vtype, encodeValue e.vtype ((poolMinVal e.state).getD 0),
    encodeValue e.vtype ((poolMaxVal e.state).getD 0), stats e.state⟩

/-- Modelled from the spec: `all()` (§4.6) — one snapshot per existing pool,
ordered by pool name ascending. -/
def allPools (st : List PoolEntry) : List PoolSnapshot :=
  (List.insertionSort (fun a b : PoolEntry => a.name ≤ b.name) st).map snapshotOf

/-- Claim C9: `all()` returns exactly one snapshot per existing pool, in
ascending pool-name order; each snapshot's `min`/`max` are the canonical
strings of the smallest and largest values currently in its pool and its
stats equal the `stats` query of that pool at the same snapshot. -/
theorem all_listing_sorted_complete (st : List PoolEntry) :
    (allPools st).length = st.length
    ∧ List.Sorted (fun a b : PoolSnapshot => a.name ≤ b.name) (allPools st)
    ∧ (∀ snap ∈ allPools st, ∃ e ∈ st, snap.name = e.name
        ∧ snap.value_type = e.vtype
        ∧ snap.stats = stats e.state
        ∧ (∀ m, poolMinVal e.state = some m → snap.min = encodeValue e.vtype m)
        ∧ (∀ m, poolMaxVal e.state = some m → snap.max = encodeValue e.vtype m))
    ∧ (∀ e ∈ st, snapshotOf e ∈ allPools st) := by
  haveI htot : IsTotal PoolEntry (fun a b => a.name ≤ b.name) :=
    ⟨fun a b => le_total a.name b.name⟩
  haveI htr : IsTrans PoolEntry (fun a b => a.name ≤ b.name) :=
    ⟨fun _ _ _ hab hbc => le_trans hab hbc⟩
  have hperm := List.perm_insertionSort (fun a b : PoolEntry => a.name ≤ b.name) st
  refine ⟨?_, ?_, ?_, ?_⟩
  · rw [allPools, List.length_map, hperm.length_eq]
  · have hsorted := List.sorted_insertionSort (fun a b : PoolEntry => a.name ≤ b.name) st
    rw [allPools, List.Sorted, List.pairwise_map]
    exact hsorted
  · intro snap hsnap
    rw [allPools, List.mem_map] at hsnap
    obtain ⟨e, hmem, hsnapEq⟩ := hsnap
    refine ⟨e, hperm.mem_iff.mp hmem, ?_, ?_, ?_, ?_, ?_⟩ <;>
      rw [← hsnapEq]
    · rfl
    · rfl
    · rfl
    · intro m hm
      simp [snapshotOf, hm]
    · intro m hm
      simp [snapshotOf, hm]
  · intro e hmem
    rw [allPools, List.mem_map]
    exact ⟨e, hperm.mem_iff.mpr hmem, rfl⟩

theorem all_listing_sorted_complete_witness :
    (allPools [⟨"b", .integer, ⟨[⟨1, true, none⟩]⟩⟩,
        ⟨"a", .integer, ⟨[⟨1, true, some ⟨OwnerType.machine, "my_id"⟩⟩, ⟨2, true, none⟩]⟩⟩]).length = 2
    ∧ snapshotOf ⟨"a", .integer, ⟨[⟨1, true, some ⟨OwnerType.machine, "my_id"⟩⟩, ⟨2, true, none⟩]⟩⟩
      ∈ allPools [⟨"b", .integer, ⟨[⟨1, true, none⟩]⟩⟩,
        ⟨"a", .integer, ⟨[⟨1, true, some ⟨OwnerType.machine, "my_id"⟩⟩, ⟨2, true, none⟩]⟩⟩] := by
  have h := all_listing_sorted_complete
    [⟨"b", .integer, ⟨[⟨1, true, none⟩]⟩⟩,
      ⟨"a", .integer, ⟨[⟨1, true, some ⟨OwnerType.machine, "my_id"⟩⟩, ⟨2, true, none⟩]⟩⟩]
  exact ⟨h.1.trans rfl, h.2.2.2 _ (by simp)⟩

/-- Modelled from the spec: the strongly-typed UUID wrappers (`TypedUuid<M>`
of the `carbide_uuid` crate; only the per-type marker declarations and tests
are in the published sources).  Per §9: a thin wrapper around a 128-bit
value; the marker type only contributes the debug type name. -/
structure TypedUuid (M : Type) where
  uuid : Nat
  deriving DecidableEq, Repr

/-- Marker for `VpcId` (`TYPE_NAME = "VpcId"`). -/
structure VpcIdMarker where
  deriving DecidableEq, Repr

/-- Marker for `NetworkPrefixId` (`TYPE_NAME = "NetworkPrefixId"`). -/
structure NetworkPrefixIdMarker where
  deriving DecidableEq, Repr

/-- `VpcId` is a strongly typed UUID specific to a VPC ID. -/
abbrev VpcId := TypedUuid VpcIdMarker

/-- `NetworkPrefixId` is a strongly typed UUID for network prefixes. -/
abbrev NetworkPrefixId := TypedUuid NetworkPrefixIdMarker

/-- The double-quote character of the JSON string form. -/
def quoteChar : Char := Char.ofNat 34

/-- The lowercase hex digit for `n % 16`. -/
def hexDigitChar (n : Nat) : Char :=
  if n < 10 then Char.ofNat (48 + n) else Char.ofNat (87 + n)

/-- Fixed-width big-endian lowercase hex rendering of `n`. -/
def toHexChars : Nat → Nat → List Char
  | 0, _ => []
  | w + 1, n => toHexChars w (n / 16) ++ [hexDigitChar (n % 16)]

/-- The value of one hex digit character, if it is one. -/
def hexCharVal? (c : Char) : Option Nat :=
  if 48 ≤ c.toNat ∧ c.toNat ≤ 57 then some (c.toNat - 48)
  else if 97 ≤ c.toNat ∧ c.toNat ≤ 102 then some (c.toNat - 87)
  else none

/-- Consume exactly `k` hex digits, extending the accumulator `acc`. -/
def readHexN : Nat → List Char → Nat → Option (Nat × List Char)
  | 0, cs, acc => some (acc, cs)
  | _ + 1, [], _ => none
  | k + 1, c :: cs, acc =>
    match hexCharVal? c with
    | none => none
    | some d => readHexN k cs (acc * 16 + d)

/-- The hyphenated 8-4-4-4-12 lowercase hex form of a 128-bit value. -/
def uuidChars (u : Nat) : List Char :=
  toHexChars 8 (u / 2 ^ 96)
    ++ ['-'] ++ toHexChars 4 (u / 2 ^ 80 % 2 ^ 16)
    ++ ['-'] ++ toHexChars 4 (u / 2 ^ 64 % 2 ^ 16)
    ++ ['-'] ++ toHexChars 4 (u / 2 ^ 48 % 2 ^ 16)
    ++ ['-'] ++ toHexChars 12 (u % 2 ^ 48)

/-- Modelled from the spec: `serde_json::to_string` of a UUID — the
double-quoted hyphenated string (§9; `test_vpc_id_json_round_trip` pins the
quotes, `test_network_prefix_id_serialization` pins that wrappers serialize
as the plain UUID). -/
def uuidToJson (u : Nat) : String :=
  ⟨quoteChar :: (uuidChars u ++ [quoteChar])⟩

/-- Consume a single hyphen separator. -/
def expectDash : List Char → Option (List Char)
  | c :: cs => if c = '-' then some cs else none
  | [] => none

/-- Consume the closing quote, which must end the input. -/
def expectClose : List Char → Option Unit
  | [c] => if c = quoteChar then some () else none
  | _ => none

/-- Parse the five hyphen-separated hex groups followed by the closing
quote. -/
def parseUuidBody (cs : List Char) : Option Nat :=
  (readHexN 8 cs 0).bind fun p1 =>
  (expectDash p1.2).bind fun cs1 =>
  (readHexN 4 cs1 p1.1).bind fun p2 =>
  (expectDash p2.2).bind fun cs2 =>
  (readHexN 4 cs2 p2.1).bind fun p3 =>
  (expectDash p3.2).bind fun cs3 =>
  (readHexN 4 cs3 p3.1).bind fun p4 =>
  (expectDash p4.2).bind fun cs4 =>
  (readHexN 12 cs4 p4.1).bind fun p5 =>
  (expectClose p5.2).map fun _ => p5.1

/-- Modelled from the spec: `serde_json::from_str` of a UUID string. -/
def uuidFromJson (s : String) : Option Nat :=
  match s.data with
  | c :: cs => if c = quoteChar then parseUuidBody cs else none
  | _ => none

/-- A typed wrapper serializes exactly as its inner UUID. -/
def typedUuidToJson {M : Type} (t : TypedUuid M) : String :=
  uuidToJson t.uuid

/-- A typed wrapper deserializes by deserializing the inner UUID. -/
def typedUuidFromJson {M : Type} (s : String) : Option (TypedUuid M) :=
  (uuidFromJson s).map TypedUuid.mk

theorem hexCharVal?_hexDigitChar {m : Nat} (h : m < 16) :
    hexCharVal? (hexDigitChar m) = some m := by
  interval_cases m <;> decide

/-- Reading back `w` fixed-width hex digits continues with the accumulator
shifted by `16 ^ w` and the digits' value added. -/
theorem readHexN_toHexChars (w : Nat) :
    ∀ (n acc k : Nat) (rest : List Char), n < 16 ^ w →
      readHexN (w + k) (toHexChars w n ++ rest) acc
        = readHexN k rest (acc * 16 ^ w + n) := by
  induction w with
  | zero =>
    intro n acc k rest hn
    have hn0 : n = 0 := Nat.lt_one_iff.mp hn
    subst hn0
    simp [toHexChars, Nat.zero_add]
  | succ w ih =>
    intro n acc k rest hn
    have harr : (w + 1) + k = w + (k + 1) := by omega
    have hdiv : n / 16 < 16 ^ w := by
      rw [Nat.div_lt_iff_lt_mul (by norm_num)]
      calc n < 16 ^ (w + 1) := hn
        _ = 16 ^ w * 16 := pow_succ 16 w
    have hassoc : toHexChars (w + 1) n ++ rest
        = toHexChars w (n / 16) ++ (hexDigitChar (n % 16) :: rest) := by
      simp [toHexChars, List.append_assoc]
    rw [harr, hassoc, ih (n / 16) acc (k + 1) _ hdiv]
    have hstep : readHexN (k + 1) (hexDigitChar (n % 16) :: rest) (acc * 16 ^ w + n / 16)
        = readHexN k rest ((acc * 16 ^ w + n / 16) * 16 + n % 16) := by
      simp only [readHexN]
      rw [hexCharVal?_hexDigitChar (Nat.mod_lt n (by norm_num))]
    rw [hstep]
    congr 1
    have hmod : n / 16 * 16 + n % 16 = n := by omega
    calc (acc * 16 ^ w + n / 16) * 16 + n % 16
        = acc * (16 ^ w * 16) + (n / 16 * 16 + n % 16) := by ring
      _ = acc * 16 ^ (w + 1) + n := by rw [hmod, ← pow_succ]

/-- Dropping a shift-by-`2 ^ j` then adding the mod recovers the division by
`2 ^ k`. -/
theorem step_div (x k j : Nat) :
    x / 2 ^ (k + j) * 2 ^ j + x / 2 ^ k % 2 ^ j = x / 2 ^ k := by
  have h1 : x / 2 ^ (k + j) = x / 2 ^ k / 2 ^ j := by
    rw [Nat.div_div_eq_div_mul, pow_add]
  rw [h1]
  calc x / 2 ^ k / 2 ^ j * 2 ^ j + x / 2 ^ k % 2 ^ j
      = 2 ^ j * (x / 2 ^ k / 2 ^ j) + x / 2 ^ k % 2 ^ j := by ring
    _ = x / 2 ^ k := Nat.div_add_mod _ _

/-- Reading one complete fixed-width hex group off the front of the input. -/
theorem readHexN_group (w n acc : Nat) (rest : List Char) (hn : n < 16 ^ w) :
    readHexN w (toHexChars w n ++ rest) acc = some (acc * 16 ^ w + n, rest) := by
  have h := readHexN_toHexChars w n acc 0 rest hn
  rw [Nat.add_zero] at h
  rw [h]
  rfl

theorem expectDash_cons (cs : List Char) : expectDash ('-' :: cs) = some cs := by
  simp [expectDash]

theorem expectClose_quote : expectClose [quoteChar] = some () := by
  simp [expectClose]

set_option maxHeartbeats 1000000 in
/-- Parsing the rendered hyphenated hex form of a 128-bit value recovers the
value. -/
theorem parseUuidBody_uuidChars (u : Nat) (h : u < 2 ^ 128) :
    parseUuidBody (uuidChars u ++ [quoteChar]) = some u := by
  have p16_4 : (16 : Nat) ^ 4 = 2 ^ 16 := by norm_num
  have p16_8 : (16 : Nat) ^ 8 = 2 ^ 32 := by norm_num
  have p16_12 : (16 : Nat) ^ 12 = 2 ^ 48 := by norm_num
  have hA : u / 2 ^ 96 < 16 ^ 8 := by
    rw [p16_8, Nat.div_lt_iff_lt_mul (by norm_num)]
    calc u < 2 ^ 128 := h
      _ = 2 ^ 32 * 2 ^ 96 := by norm_num
  have hB : u / 2 ^ 80 % 2 ^ 16 < 16 ^ 4 := by
    rw [p16_4]
    exact Nat.mod_lt _ (by norm_num)
  have hC : u / 2 ^ 64 % 2 ^ 16 < 16 ^ 4 := by
    rw [p16_4]
    exact Nat.mod_lt _ (by norm_num)
  have hD : u / 2 ^ 48 % 2 ^ 16 < 16 ^ 4 := by
    rw [p16_4]
    exact Nat.mod_lt _ (by norm_num)
  have hE : u % 2 ^ 48 < 16 ^ 12 := by
    rw [p16_12]
    exact Nat.mod_lt _ (by norm_num)
  have hL : uuidChars u ++ [quoteChar]
      = toHexChars 8 (u / 2 ^ 96)
        ++ ('-' :: (toHexChars 4 (u / 2 ^ 80 % 2 ^ 16)
          ++ ('-' :: (toHexChars 4 (u / 2 ^ 64 % 2 ^ 16)
            ++ ('-' :: (toHexChars 4 (u / 2 ^ 48 % 2 ^ 16)
              ++ ('-' :: (toHexChars 12 (u % 2 ^ 48) ++ [quoteChar])))))))) := by
    simp [uuidChars, List.append_assoc]
  rw [hL]
  unfold parseUuidBody
  rw [readHexN_group 8 (u / 2 ^ 96) 0 _ hA]
  simp only [Option.some_bind]
  rw [expectDash_cons]
  simp only [Option.some_bind]
  rw [readHexN_group 4 (u / 2 ^ 80 % 2 ^ 16) _ _ hB]
  simp only [Option.some_bind]
  rw [expectDash_cons]
  simp only [Option.some_bind]
  rw [readHexN_group 4 (u / 2 ^ 64 % 2 ^ 16) _ _ hC]
  simp only [Option.some_bind]
  rw [expectDash_cons]
  simp only [Option.some_bind]
  rw [readHexN_group 4 (u / 2 ^ 48 % 2 ^ 16) _ _ hD]
  simp only [Option.some_bind]
  rw [expectDash_cons]
  simp only [Option.some_bind]
  rw [readHexN_group 12 (u % 2 ^ 48) _ _ hE]
  simp only [Option.some_bind]
  rw [expectClose_quote]
  simp only [Option.map_some']
  congr 1
  have e2 : u / 2 ^ 96 * 2 ^ 16 + u / 2 ^ 80 % 2 ^ 16 = u / 2 ^ 80 := by
    have hs := step_div u 80 16
    rw [show (80 + 16 : Nat) = 96 from rfl] at hs
    exact hs
  have e3 : u / 2 ^ 80 * 2 ^ 16 + u / 2 ^ 64 % 2 ^ 16 = u / 2 ^ 64 := by
    have hs := step_div u 64 16
    rw [show (64 + 16 : Nat) = 80 from rfl] at hs
    exact hs
  have e4 : u / 2 ^ 64 * 2 ^ 16 + u / 2 ^ 48 % 2 ^ 16 = u / 2 ^ 48 := by
    have hs := step_div u 48 16
    rw [show (48 + 16 : Nat) = 64 from rfl] at hs
    exact hs
  have e5 : u / 2 ^ 48 * 2 ^ 48 + u % 2 ^ 48 = u := by
    have hs := step_div u 0 48
    rw [show (0 + 48 : Nat) = 48 from rfl, pow_zero, Nat.div_one] at hs
    exact hs
  calc ((((0 * 16 ^ 8 + u / 2 ^ 96) * 16 ^ 4 + u / 2 ^ 80 % 2 ^ 16) * 16 ^ 4
          + u / 2 ^ 64 % 2 ^ 16) * 16 ^ 4 + u / 2 ^ 48 % 2 ^ 16) * 16 ^ 12
        + u % 2 ^ 48
      = (((u / 2 ^ 96 * 2 ^ 16 + u / 2 ^ 80 % 2 ^ 16) * 2 ^ 16
          + u / 2 ^ 64 % 2 ^ 16) * 2 ^ 16 + u / 2 ^ 48 % 2 ^ 16) * 2 ^ 48
        + u % 2 ^ 48 := by rw [p16_4, p16_12]; ring
    _ = ((u / 2 ^ 80 * 2 ^ 16 + u / 2 ^ 64 % 2 ^ 16) * 2 ^ 16
          + u / 2 ^ 48 % 2 ^ 16) * 2 ^ 48 + u % 2 ^ 48 := by rw [e2]
    _ = (u / 2 ^ 64 * 2 ^ 16 + u / 2 ^ 48 % 2 ^ 16) * 2 ^ 48 + u % 2 ^ 48 := by rw [e3]
    _ = u / 2 ^ 48 * 2 ^ 48 + u % 2 ^ 48 := by rw [e4]
    _ = u := e5

/-- Round trip of the plain UUID JSON codec. -/
theorem uuidFromJson_uuidToJson (u : Nat) (h : u < 2 ^ 128) :
    uuidFromJson (uuidToJson u) = some u := by
  unfold uuidToJson uuidFromJson
  dsimp only
  rw [if_pos rfl]
  exact parseUuidBody_uuidChars u h

/-- Claim C10: every typed-ID wrapper serializes to exactly the JSON of its
inner UUID — a double-quoted hyphenated string — and deserializing that JSON
returns the same wrapped identifier. -/
theorem typed_uuid_json_round_trip {M : Type} (u : Nat) (h : u < 2 ^ 128) :
    typedUuidToJson (TypedUuid.mk (M := M) u) = uuidToJson u
    ∧ (uuidToJson u).data = quoteChar :: (uuidChars u ++ [quoteChar])
    ∧ typedUuidFromJson (typedUuidToJson (TypedUuid.mk (M := M) u))
        = some (TypedUuid.mk (M := M) u) := by
  refine ⟨rfl, rfl, ?_⟩
  unfold typedUuidFromJson typedUuidToJson
  rw [uuidFromJson_uuidToJson u h]
  rfl

theorem typed_uuid_json_round_trip_witness :
    typedUuidFromJson (M := VpcIdMarker)
        (typedUuidToJson (TypedUuid.mk (M := VpcIdMarker) 0x550e8400e29b41d4a716446655440000))
      = some (TypedUuid.mk (M := VpcIdMarker) 0x550e8400e29b41d4a716446655440000)
    ∧ typedUuidToJson (TypedUuid.mk (M := NetworkPrefixIdMarker) 0)
      = uuidToJson 0 := by
  constructor
  · exact (typed_uuid_json_round_trip (M := VpcIdMarker)
      0x550e8400e29b41d4a716446655440000 (by norm_num)).2.2
  · exact (typed_uuid_json_round_trip (M := NetworkPrefixIdMarker) 0 (by norm_num)).1

end Carbide
